import Mathlib

/-!
Shallow embedding of the kitbash OBJ8 merge core (kitbash.cpp).

Lines are modelled as `List Char`; a file is a `List (List Char)`.
`std::stoi` is modelled as an `Option Int` parser with C++ semantics
(leading whitespace, optional sign, longest digit run, `none` on
no-digit input or int-range overflow, which in C++ raises an exception
that every call site catches).
-/

namespace Kitbash

abbrev Str := List Char

/-- The C++ default-locale `isspace` set: space, \t, \n, \v, \f, \r. -/
def isCppSpace (c : Char) : Bool :=
  c == ' ' || c == '\t' || c == '\n' || c == '\x0b' || c == '\x0c' || c == '\r'

theorem dropWhile_length_le {α : Type} (p : α → Bool) (l : List α) :
    (l.dropWhile p).length ≤ l.length := by
  induction l with
  | nil => simp
  | cons a l ih =>
    by_cases h : p a
    · simp [List.dropWhile_cons, h]
      omega
    · simp [List.dropWhile_cons, h]

/-- `tokenize` worker, structurally recursive on explicit fuel (so the
kernel can evaluate it); fuel `l.length` always suffices because every
step consumes at least one character. -/
def tokenizeFuel : Nat → Str → List Str
  | 0, _ => []
  | _ + 1, [] => []
  | fuel + 1, c :: cs =>
    if isCppSpace c then tokenizeFuel fuel cs
    else (c :: cs.takeWhile (fun d => !isCppSpace d)) ::
         tokenizeFuel fuel (cs.dropWhile (fun d => !isCppSpace d))

/-- `tokenize`: split a line into maximal whitespace-delimited tokens,
mirroring repeated `iss >> token` extraction. -/
def tokenize (l : Str) : List Str := tokenizeFuel l.length l

/-- Digit test used by the `stoi` model (`'0'..'9'`). -/
def isDigitCh (c : Char) : Bool := 48 ≤ c.toNat && c.toNat ≤ 57

/-- Value of a digit run, most significant first. -/
def digitsVal (ds : Str) : Nat := ds.foldl (fun a c => a * 10 + (c.toNat - 48)) 0

def intMax : Int := 2147483647
def intMin : Int := -2147483648

/-- Model of `std::stoi` (base 10): skip C whitespace, optional sign,
longest digit run; `none` when there is no digit or the value falls
outside the `int` range (C++ throws there; callers catch). -/
def stoi (s : Str) : Option Int :=
  let t := s.dropWhile isCppSpace
  let sg : Int := match t with
    | '-' :: _ => -1
    | _ => 1
  let rest : Str := match t with
    | '-' :: r => r
    | '+' :: r => r
    | r => r
  match rest.takeWhile isDigitCh with
  | [] => none
  | d :: ds =>
    let v : Int := sg * (digitsVal (d :: ds) : Int)
    if v < intMin ∨ intMax < v then none else some v

/-- `std::to_string` for naturals, structurally (fuel) so that the
kernel can evaluate it. -/
def natToCharsAux (fuel : Nat) (n : Nat) (acc : Str) : Str :=
  match fuel with
  | 0 => acc
  | fuel + 1 =>
    if n < 10 then Nat.digitChar n :: acc
    else natToCharsAux fuel (n / 10) (Nat.digitChar (n % 10) :: acc)

def natToChars (n : Nat) : Str := natToCharsAux (n + 1) n []

/-- `std::to_string` on `int` values. -/
def intToChars (i : Int) : Str :=
  if i < 0 then '-' :: natToChars i.natAbs else natToChars i.toNat

/-- Does `pat` occur at the head of `s`? -/
def beginsWith : Str → Str → Bool
  | [], _ => true
  | _ :: _, [] => false
  | p :: ps, c :: cs => p == c && beginsWith ps cs

/-- Model of `std::string::find`: index of the first occurrence of
`pat`, `none` for `npos`. -/
def findSub (pat : Str) : Str → Option Nat
  | [] => if pat.isEmpty then some 0 else none
  | c :: cs =>
    if beginsWith pat (c :: cs) then some 0
    else (findSub pat cs).map (· + 1)

/-- `line.find(pat) != std::string::npos`. -/
def containsSub (pat s : Str) : Bool := (findSub pat s).isSome

def pcMarker : Str := "POINT_COUNTS".toList
def trisTag : Str := "TRIS".toList
def vtTag : Str := "VT".toList
def idxTag : Str := "IDX".toList
def idx10Tag : Str := "IDX10".toList

/-- One classified line (struct `ObjLine` of kitbash.h). -/
structure ObjLine where
  type : Str
  content : Str
  tokens : List Str
deriving DecidableEq, Repr

/-- One parsed document (struct `ObjInfo` of kitbash.h). -/
structure ObjInfo where
  vt_count : Int := 0
  tris_count : Int := 0
  line_count : Int := 0
  lines : List ObjLine := []
deriving DecidableEq, Repr

/-- `extract_point_counts`: VT / TRIS totals from a `POINT_COUNTS`
line; `(0, 0)` when the shape is wrong or a parse throws. -/
def extract_point_counts (line : Str) : Int × Int :=
  let tokens := tokenize line
  if 5 ≤ tokens.length ∧ tokens.getD 0 [] = pcMarker then
    match stoi (tokens.getD 1 []), stoi (tokens.getD 4 []) with
    | some vt, some tris => (vt, tris)
    | _, _ => (0, 0)
  else (0, 0)

/-- Build the `ObjLine` for one non-empty input line. -/
def mkObjLine (line : Str) : ObjLine :=
  let toks := tokenize line
  { type := toks.headD [], content := line, tokens := toks }

/-- Body of the `parse_obj` loop for one line. -/
def parse_step (info : ObjInfo) (line : Str) : ObjInfo :=
  if line.isEmpty then info
  else
    let info' :=
      if containsSub pcMarker line then
        { info with vt_count := (extract_point_counts line).1,
                    tris_count := (extract_point_counts line).2 }
      else info
    { info' with lines := info'.lines ++ [mkObjLine line] }

/-- `parse_obj`: classify every line, keeping the last extracted
point counts; `line_count` is the raw number of input lines. -/
def parse_obj (lines : List Str) : ObjInfo :=
  lines.foldl parse_step
    { vt_count := 0, tris_count := 0, line_count := (lines.length : Int), lines := [] }

/-- One reference token of an IDX/IDX10 record after adjustment:
re-parse as integer and add the offset, or pass through on failure. -/
def adjTok (off : Int) (t : Str) : Str :=
  match stoi t with
  | some v => intToChars (v + off)
  | none => t

/-- `adjust_indices_line`: shift every numeric reference of an index
record by `vt_offset`, joining with single tabs. -/
def adjust_indices_line (line : Str) (vt_offset : Int) : Str :=
  match tokenize line with
  | [] => line
  | t0 :: rest => rest.foldl (fun acc t => acc ++ '\t' :: adjTok vt_offset t) t0

/-- `adjust_tris_line`: shift the triangle index of a `TRIS` record by
`tris_offset`, keeping the raw text before the first occurrence of
the tag; the original line on any shape or parse failure. -/
def adjust_tris_line (line : Str) (tris_offset : Int) : Str :=
  let tokens := tokenize line
  if tokens.length < 3 ∨ tokens.getD 0 [] ≠ trisTag then line
  else
    match findSub trisTag line with
    | none => line
    | some pos =>
      match stoi (tokens.getD 1 []) with
      | some v =>
        line.take pos ++ trisTag ++ '\t' :: intToChars (v + tris_offset) ++
          '\t' :: tokens.getD 2 []
      | none => line

def attrDrawEnable : Str := "\tATTR_draw_enable".toList
def attrCockpit : Str := "\tATTR_cockpit".toList

/-- The rebuilt `POINT_COUNTS` line of merge pass 1. -/
def newHeaderLine (nv nt : Int) (tokens : List Str) : Str :=
  "POINT_COUNTS ".toList ++ intToChars nv ++ ' ' :: tokens.getD 2 [] ++
    ' ' :: tokens.getD 3 [] ++ ' ' :: intToChars nt

/-- Merge pass 1: copy base lines up to the first line containing the
`POINT_COUNTS` marker; emit the rebuilt header there when it has at
least 5 tokens, then stop. -/
def headerPass (nv nt : Int) : List ObjLine → List Str
  | [] => []
  | l :: ls =>
    if containsSub pcMarker l.content then
      if 5 ≤ (tokenize l.content).length then [newHeaderLine nv nt (tokenize l.content)]
      else []
    else l.content :: headerPass nv nt ls

def isIdxType (t : Str) : Bool := t = idxTag || t = idx10Tag

/-- Merge passes 2/3: all `VT` lines, in order. -/
def vtPass (lines : List ObjLine) : List Str :=
  (lines.filter (fun l => l.type = vtTag)).map (·.content)

/-- Merge pass 4: all `IDX`/`IDX10` lines, in order, unmodified. -/
def idxPass (lines : List ObjLine) : List Str :=
  (lines.filter (fun l => isIdxType l.type)).map (·.content)

/-- Merge pass 5: all `IDX`/`IDX10` lines with vertex indices shifted. -/
def idxAdjPass (lines : List ObjLine) (off : Int) : List Str :=
  (lines.filter (fun l => isIdxType l.type)).map
    (fun l => adjust_indices_line l.content off)

/-- Merge pass 6 loop (`past_idx` flag): non-index lines seen after an
index line has been seen. -/
def footerGo (past : Bool) : List ObjLine → List Str
  | [] => []
  | l :: ls =>
    if isIdxType l.type then footerGo true ls
    else if past then l.content :: footerGo past ls
    else footerGo past ls

/-- Merge pass 8 loop: like `footerGo` but `TRIS` lines go through
`adjust_tris_line` with the triangle offset. -/
def footerAdjGo (off : Int) (past : Bool) : List ObjLine → List Str
  | [] => []
  | l :: ls =>
    if isIdxType l.type then footerAdjGo off true ls
    else if past then
      (if l.type = trisTag then adjust_tris_line l.content off else l.content) ::
        footerAdjGo off past ls
    else footerAdjGo off past ls

/-- `merge_objects`: the eight fixed passes, concatenated in order. -/
def merge_objects (base addition : ObjInfo) : List Str :=
  headerPass (base.vt_count + addition.vt_count) (base.tris_count + addition.tris_count)
      base.lines
    ++ vtPass base.lines
    ++ vtPass addition.lines
    ++ idxPass base.lines
    ++ idxAdjPass addition.lines base.vt_count
    ++ footerGo false base.lines
    ++ [attrDrawEnable, attrCockpit]
    ++ footerAdjGo base.tris_count false addition.lines

def ver800 : Str := "800".toList
def objTag : Str := "OBJ".toList

/-- `validate_obj_format`: at least 3 lines, `"800"` somewhere in line
index 1, `"OBJ"` somewhere in line index 2. -/
def validate_obj_format (lines : List Str) : Bool :=
  if lines.length < 3 then false
  else if 1 < lines.length ∧ containsSub ver800 (lines.getD 1 []) = false then false
  else if 2 < lines.length ∧ containsSub objTag (lines.getD 2 []) = false then false
  else true

/-! ### Exception-flow model

The same pipeline with the C++ `throw`/`catch` boundaries made
explicit in the `Except Unit` monad: `stoiE` throws, each `try { ... }
catch { ... }` block of the source is a `tryCatchE`.  Exceptions not
caught locally propagate, exactly as in C++. -/

/-- A C++ `try`/`catch` block over `Except`. -/
def tryCatchE {α : Type} (x : Except Unit α) (h : Unit → Except Unit α) : Except Unit α :=
  match x with
  | .ok v => .ok v
  | .error e => h e

/-- `std::stoi` with its throwing behaviour visible. -/
def stoiE (s : Str) : Except Unit Int :=
  match stoi s with
  | some v => .ok v
  | none => .error ()

/-- `extract_point_counts` with the source's `try`/`catch` around the
two `stoi` calls. -/
def extract_point_countsE (line : Str) : Except Unit (Int × Int) :=
  let tokens := tokenize line
  if 5 ≤ tokens.length ∧ tokens.getD 0 [] = pcMarker then
    tryCatchE (do
      let vt ← stoiE (tokens.getD 1 [])
      let tris ← stoiE (tokens.getD 4 [])
      pure (vt, tris))
      (fun _ => pure (0, 0))
  else pure (0, 0)

/-- `parse_obj` loop body in the exception monad. -/
def parse_stepE (info : ObjInfo) (line : Str) : Except Unit ObjInfo :=
  if line.isEmpty then pure info
  else do
    let info' ←
      if containsSub pcMarker line then do
        let c ← extract_point_countsE line
        pure { info with vt_count := c.1, tris_count := c.2 }
      else pure info
    pure { info' with lines := info'.lines ++ [mkObjLine line] }

def parse_objE (lines : List Str) : Except Unit ObjInfo :=
  lines.foldlM parse_stepE
    { vt_count := 0, tris_count := 0, line_count := (lines.length : Int), lines := [] }

/-- `adjust_indices_line` with the per-token `try`/`catch`. -/
def adjust_indices_lineE (line : Str) (vt_offset : Int) : Except Unit Str :=
  match tokenize line with
  | [] => pure line
  | t0 :: rest =>
    rest.foldlM (fun acc t =>
      tryCatchE (do
        let v ← stoiE t
        pure (acc ++ '\t' :: intToChars (v + vt_offset)))
        (fun _ => pure (acc ++ '\t' :: t))) t0

/-- `adjust_tris_line` with its `try`/`catch` around the index parse. -/
def adjust_tris_lineE (line : Str) (tris_offset : Int) : Except Unit Str :=
  let tokens := tokenize line
  if tokens.length < 3 ∨ tokens.getD 0 [] ≠ trisTag then pure line
  else
    match findSub trisTag line with
    | none => pure line
    | some pos =>
      tryCatchE (do
        let v ← stoiE (tokens.getD 1 [])
        pure (line.take pos ++ trisTag ++ '\t' :: intToChars (v + tris_offset) ++
          '\t' :: tokens.getD 2 []))
        (fun _ => pure line)

def idxAdjPassE (lines : List ObjLine) (off : Int) : Except Unit (List Str) :=
  (lines.filter (fun l => isIdxType l.type)).mapM
    (fun l => adjust_indices_lineE l.content off)

def footerAdjGoE (off : Int) (past : Bool) : List ObjLine → Except Unit (List Str)
  | [] => pure []
  | l :: ls =>
    if isIdxType l.type then footerAdjGoE off true ls
    else if past then do
      let h ← if l.type = trisTag then adjust_tris_lineE l.content off else pure l.content
      let t ← footerAdjGoE off past ls
      pure (h :: t)
    else footerAdjGoE off past ls

/-- `merge_objects` in the exception monad: any uncaught exception in
an adjuster call would propagate out of the merge. -/
def merge_objectsE (base addition : ObjInfo) : Except Unit (List Str) := do
  let pass5 ← idxAdjPassE addition.lines base.vt_count
  let pass8 ← footerAdjGoE base.tris_count false addition.lines
  pure (headerPass (base.vt_count + addition.vt_count)
          (base.tris_count + addition.tris_count) base.lines
    ++ vtPass base.lines
    ++ vtPass addition.lines
    ++ idxPass base.lines
    ++ pass5
    ++ footerGo false base.lines
    ++ [attrDrawEnable, attrCockpit]
    ++ pass8)

/-! ### Spec-side vocabulary -/

/-- Join tokens with single tab separators (the output shape the spec
describes for adjusted index records). -/
def tabJoined : List Str → Str
  | [] => []
  | [t] => t
  | t :: ts => t ++ '\t' :: tabJoined ts

/-- The record, per the spec, holding the point counts: the last line
whose text contains the header marker anywhere. -/
def lastMarkerLine (lines : List Str) : Option Str :=
  lines.reverse.find? (fun l => containsSub pcMarker l)

/-! ### Concrete example documents -/

def demoC1Base : List Str :=
  ["A".toList, "800".toList, "OBJ".toList, "POINT_COUNTS 100 50 0 40".toList]

def demoC1Add : List Str :=
  ["B".toList, "800".toList, "OBJ".toList, "POINT_COUNTS 20 10 0 5".toList]

def demoMinAdd : List Str :=
  ["B".toList, "800".toList, "OBJ".toList, "POINT_COUNTS 0 0 0 0".toList]

def demoC4Base : List Str :=
  ["A".toList, "800".toList, "OBJ".toList, "POINT_COUNTS 1 0 0 1".toList,
   "VT a".toList, "IDX 0".toList, "FOO".toList, "IDX 1".toList, "BAR".toList]

def demoC7Base : List Str :=
  ["A".toList, "800".toList, "OBJ".toList, "POINT_COUNTS 1 0 0 1".toList,
   "VT a".toList, "IDX 0".toList, "\tATTR_draw_enable".toList]

def demoC10Base : List Str :=
  ["A".toList, "800".toList, "OBJ".toList, "POINT_COUNTS 7".toList, "VT x".toList]

/-! ## Tokenizer lemmas -/

theorem tokenizeFuel_irrel :
    ∀ (f1 f2 : Nat) (l : Str), l.length ≤ f1 → l.length ≤ f2 →
      tokenizeFuel f1 l = tokenizeFuel f2 l := by
  intro f1
  induction f1 with
  | zero =>
    intro f2 l h1 _
    have hl : l = [] := List.length_eq_zero.mp (Nat.le_zero.mp h1)
    subst hl
    cases f2 <;> simp [tokenizeFuel]
  | succ f1 ih =>
    intro f2 l h1 h2
    cases l with
    | nil => cases f2 <;> simp [tokenizeFuel]
    | cons c cs =>
      cases f2 with
      | zero => simp at h2
      | succ f2 =>
        simp only [List.length_cons, Nat.add_le_add_iff_right] at h1 h2
        by_cases hc : isCppSpace c
        · simp only [tokenizeFuel, hc, if_true]
          exact ih f2 cs h1 h2
        · simp only [tokenizeFuel]
          rw [if_neg hc, if_neg hc]
          rw [ih f2 _ (le_trans (dropWhile_length_le _ _) h1)
            (le_trans (dropWhile_length_le _ _) h2)]

theorem tokenize_nil : tokenize [] = [] := rfl

theorem tokenize_cons_space {c : Char} (cs : Str) (h : isCppSpace c = true) :
    tokenize (c :: cs) = tokenize cs := by
  show tokenizeFuel (c :: cs).length (c :: cs) = tokenizeFuel cs.length cs
  simp only [List.length_cons, tokenizeFuel, h, if_true]

theorem tokenize_cons_nonspace {c : Char} (cs : Str) (h : isCppSpace c = false) :
    tokenize (c :: cs) =
      (c :: cs.takeWhile (fun d => !isCppSpace d)) ::
        tokenize (cs.dropWhile (fun d => !isCppSpace d)) := by
  show tokenizeFuel (c :: cs).length (c :: cs) = _
  simp only [List.length_cons, tokenizeFuel, h, if_false]
  rw [tokenizeFuel_irrel cs.length (cs.dropWhile (fun d => !isCppSpace d)).length _
    (dropWhile_length_le _ _) le_rfl]
  rfl

theorem takeWhile_all {α : Type} {p : α → Bool} {l : List α}
    (h : ∀ a ∈ l, p a = true) : l.takeWhile p = l := by
  induction l with
  | nil => simp
  | cons a l ih =>
    rw [List.takeWhile_cons, if_pos (h a (List.mem_cons_self a l))]
    rw [ih (fun b hb => h b (List.mem_cons_of_mem _ hb))]

theorem dropWhile_all {α : Type} {p : α → Bool} {l : List α}
    (h : ∀ a ∈ l, p a = true) : l.dropWhile p = [] := by
  induction l with
  | nil => simp
  | cons a l ih =>
    rw [List.dropWhile_cons, if_pos (h a (List.mem_cons_self a l))]
    exact ih (fun b hb => h b (List.mem_cons_of_mem _ hb))

theorem takeWhile_append_all {α : Type} {p : α → Bool} {l1 l2 : List α}
    (h : ∀ a ∈ l1, p a = true) :
    (l1 ++ l2).takeWhile p = l1 ++ l2.takeWhile p := by
  induction l1 with
  | nil => simp
  | cons a l1 ih =>
    rw [List.cons_append, List.takeWhile_cons, if_pos (h a (List.mem_cons_self a l1))]
    rw [ih (fun b hb => h b (List.mem_cons_of_mem _ hb)), List.cons_append]

theorem dropWhile_append_all {α : Type} {p : α → Bool} {l1 l2 : List α}
    (h : ∀ a ∈ l1, p a = true) :
    (l1 ++ l2).dropWhile p = l2.dropWhile p := by
  induction l1 with
  | nil => simp
  | cons a l1 ih =>
    rw [List.cons_append, List.dropWhile_cons, if_pos (h a (List.mem_cons_self a l1))]
    exact ih (fun b hb => h b (List.mem_cons_of_mem _ hb))

/-- A nonempty whitespace-free token followed by a space: the tokenizer
emits the token and continues behind the space. -/
theorem tokenize_token_cons {tok rest : Str} (hne : tok ≠ [])
    (hns : ∀ c ∈ tok, isCppSpace c = false) :
    tokenize (tok ++ ' ' :: rest) = tok :: tokenize rest := by
  obtain ⟨c, cs, rfl⟩ := List.exists_cons_of_ne_nil hne
  have hc : isCppSpace c = false := hns c (List.mem_cons_self c cs)
  have hcs : ∀ a ∈ cs, (fun d => !isCppSpace d) a = true := by
    intro a ha
    simp [hns a (List.mem_cons_of_mem _ ha)]
  have h1 : List.takeWhile (fun d => !isCppSpace d) (' ' :: rest) = [] := by
    rw [List.takeWhile_cons, if_neg (by decide)]
  have h2 : List.dropWhile (fun d => !isCppSpace d) (' ' :: rest) = ' ' :: rest := by
    rw [List.dropWhile_cons, if_neg (by decide)]
  rw [List.cons_append, tokenize_cons_nonspace _ hc]
  rw [takeWhile_append_all hcs, dropWhile_append_all hcs, h1, h2, List.append_nil,
    tokenize_cons_space _ (by decide)]

/-- A nonempty whitespace-free token alone is one token. -/
theorem tokenize_token_single {tok : Str} (hne : tok ≠ [])
    (hns : ∀ c ∈ tok, isCppSpace c = false) :
    tokenize tok = [tok] := by
  obtain ⟨c, cs, rfl⟩ := List.exists_cons_of_ne_nil hne
  have hc : isCppSpace c = false := hns c (List.mem_cons_self c cs)
  have hcs : ∀ a ∈ cs, (fun d => !isCppSpace d) a = true := by
    intro a ha
    simp [hns a (List.mem_cons_of_mem _ ha)]
  rw [tokenize_cons_nonspace _ hc, takeWhile_all hcs, dropWhile_all hcs, tokenize_nil]

/-- Every token the tokenizer produces is nonempty and free of
whitespace. -/
theorem tokenizeFuel_mem :
    ∀ (fuel : Nat) (l : Str), ∀ t ∈ tokenizeFuel fuel l,
      t ≠ [] ∧ ∀ c ∈ t, isCppSpace c = false := by
  intro fuel
  induction fuel with
  | zero => intro l t ht; simp [tokenizeFuel] at ht
  | succ fuel ih =>
    intro l t ht
    cases l with
    | nil => simp [tokenizeFuel] at ht
    | cons c cs =>
      by_cases hc : isCppSpace c
      · rw [show tokenizeFuel (fuel + 1) (c :: cs) = tokenizeFuel fuel cs by
          simp only [tokenizeFuel, hc, if_true]] at ht
        exact ih cs t ht
      · rw [show tokenizeFuel (fuel + 1) (c :: cs) =
            (c :: cs.takeWhile (fun d => !isCppSpace d)) ::
              tokenizeFuel fuel (cs.dropWhile (fun d => !isCppSpace d)) by
          simp only [tokenizeFuel]; rw [if_neg hc]] at ht
        rcases List.mem_cons.mp ht with rfl | hm
        · refine ⟨by simp, ?_⟩
          intro d hd
          rcases List.mem_cons.mp hd with rfl | hd'
          · exact Bool.not_eq_true _ ▸ (by simpa using hc)
          · have := List.mem_takeWhile_imp hd'
            simpa using this
        · exact ih _ t hm

theorem tokenize_mem {l t : Str} (ht : t ∈ tokenize l) :
    t ≠ [] ∧ ∀ c ∈ t, isCppSpace c = false :=
  tokenizeFuel_mem l.length l t ht

/-- The tokenizer returns no tokens exactly on all-whitespace input. -/
theorem tokenizeFuel_eq_nil_iff :
    ∀ (fuel : Nat) (l : Str), l.length ≤ fuel →
      (tokenizeFuel fuel l = [] ↔ ∀ c ∈ l, isCppSpace c = true) := by
  intro fuel
  induction fuel with
  | zero =>
    intro l h
    have hl : l = [] := List.length_eq_zero.mp (Nat.le_zero.mp h)
    subst hl
    simp [tokenizeFuel]
  | succ fuel ih =>
    intro l h
    cases l with
    | nil => simp [tokenizeFuel]
    | cons c cs =>
      simp only [List.length_cons, Nat.add_le_add_iff_right] at h
      by_cases hc : isCppSpace c
      · rw [show tokenizeFuel (fuel + 1) (c :: cs) = tokenizeFuel fuel cs by
          simp only [tokenizeFuel, hc, if_true]]
        rw [ih cs h]
        constructor
        · intro hall d hd
          rcases List.mem_cons.mp hd with rfl | hd'
          · exact hc
          · exact hall d hd'
        · intro hall d hd
          exact hall d (List.mem_cons_of_mem _ hd)
      · rw [show tokenizeFuel (fuel + 1) (c :: cs) =
            (c :: cs.takeWhile (fun d => !isCppSpace d)) ::
              tokenizeFuel fuel (cs.dropWhile (fun d => !isCppSpace d)) by
          simp only [tokenizeFuel]; rw [if_neg hc]]
        constructor
        · intro habs; exact absurd habs (by simp)
        · intro hall
          exact absurd (hall c (List.mem_cons_self c cs)) (by simpa using hc)

theorem tokenize_eq_nil_iff (l : Str) :
    tokenize l = [] ↔ ∀ c ∈ l, isCppSpace c = true :=
  tokenizeFuel_eq_nil_iff l.length l le_rfl

/-- When tokenization is nonempty, the line is its leading whitespace,
then its first token, then a remainder. -/
theorem tokenizeFuel_head_split :
    ∀ (fuel : Nat) (l : Str) (t0 : Str) (ts : List Str), l.length ≤ fuel →
      tokenizeFuel fuel l = t0 :: ts →
      ∃ tail, l = l.takeWhile isCppSpace ++ t0 ++ tail := by
  intro fuel
  induction fuel with
  | zero =>
    intro l t0 ts h heq
    have hl : l = [] := List.length_eq_zero.mp (Nat.le_zero.mp h)
    subst hl
    simp [tokenizeFuel] at heq
  | succ fuel ih =>
    intro l t0 ts h heq
    cases l with
    | nil => simp [tokenizeFuel] at heq
    | cons c cs =>
      simp only [List.length_cons, Nat.add_le_add_iff_right] at h
      by_cases hc : isCppSpace c
      · rw [show tokenizeFuel (fuel + 1) (c :: cs) = tokenizeFuel fuel cs by
          simp only [tokenizeFuel, hc, if_true]] at heq
        obtain ⟨tail, htail⟩ := ih cs t0 ts h heq
        refine ⟨tail, ?_⟩
        rw [List.takeWhile_cons, if_pos hc]
        simp only [List.cons_append]
        rw [← htail]
      · rw [show tokenizeFuel (fuel + 1) (c :: cs) =
            (c :: cs.takeWhile (fun d => !isCppSpace d)) ::
              tokenizeFuel fuel (cs.dropWhile (fun d => !isCppSpace d)) by
          simp only [tokenizeFuel]; rw [if_neg hc]] at heq
        have ht0 : t0 = c :: cs.takeWhile (fun d => !isCppSpace d) :=
          (List.cons.injEq _ _ _ _ ▸ heq : _ ∧ _).1.symm
        refine ⟨cs.dropWhile (fun d => !isCppSpace d), ?_⟩
        rw [List.takeWhile_cons, if_neg (by simp [hc])]
        rw [ht0]
        simp only [List.nil_append, List.cons_append, List.cons.injEq, true_and]
        rw [List.takeWhile_append_dropWhile]

theorem tokenize_head_split {l t0 : Str} {ts : List Str}
    (heq : tokenize l = t0 :: ts) :
    ∃ tail, l = l.takeWhile isCppSpace ++ t0 ++ tail :=
  tokenizeFuel_head_split l.length l t0 ts le_rfl heq

/-! ## Digit-string lemmas -/

theorem digitChar_nospace {d : Nat} (h : d < 10) :
    isCppSpace (Nat.digitChar d) = false := by
  interval_cases d <;> decide

theorem natToCharsAux_mem (P : Char → Prop) (hdig : ∀ d < 10, P (Nat.digitChar d)) :
    ∀ (fuel n : Nat) (acc : Str), (∀ c ∈ acc, P c) →
      ∀ c ∈ natToCharsAux fuel n acc, P c := by
  intro fuel
  induction fuel with
  | zero =>
    intro n acc hacc c hc
    simp only [natToCharsAux] at hc
    exact hacc c hc
  | succ fuel ih =>
    intro n acc hacc c hc
    simp only [natToCharsAux] at hc
    by_cases h : n < 10
    · rw [if_pos h] at hc
      rcases List.mem_cons.mp hc with rfl | hm
      · exact hdig n h
      · exact hacc c hm
    · rw [if_neg h] at hc
      refine ih (n / 10) _ ?_ c hc
      intro d hd
      rcases List.mem_cons.mp hd with rfl | hm
      · exact hdig _ (Nat.mod_lt n (by omega))
      · exact hacc d hm

theorem natToChars_nospace {n : Nat} : ∀ c ∈ natToChars n, isCppSpace c = false :=
  fun c hc =>
    natToCharsAux_mem (fun c => isCppSpace c = false)
      (fun d hd => digitChar_nospace hd) (n + 1) n [] (by simp) c hc

theorem natToCharsAux_ne_nil :
    ∀ (fuel n : Nat) (acc : Str), acc ≠ [] → natToCharsAux fuel n acc ≠ [] := by
  intro fuel
  induction fuel with
  | zero => intro n acc hacc; simpa [natToCharsAux] using hacc
  | succ fuel ih =>
    intro n acc hacc
    simp only [natToCharsAux]
    by_cases h : n < 10
    · simp [if_pos h]
    · rw [if_neg h]
      exact ih (n / 10) _ (by simp)

theorem natToChars_ne_nil (n : Nat) : natToChars n ≠ [] := by
  unfold natToChars natToCharsAux
  by_cases h : n < 10
  · simp [if_pos h]
  · rw [if_neg h]
    exact natToCharsAux_ne_nil n (n / 10) _ (by simp)

theorem intToChars_nospace {i : Int} : ∀ c ∈ intToChars i, isCppSpace c = false := by
  intro c hc
  unfold intToChars at hc
  by_cases h : i < 0
  · rw [if_pos h] at hc
    rcases List.mem_cons.mp hc with rfl | hm
    · decide
    · exact natToChars_nospace c hm
  · rw [if_neg h] at hc
    exact natToChars_nospace c hc

theorem intToChars_ne_nil (i : Int) : intToChars i ≠ [] := by
  unfold intToChars
  by_cases h : i < 0
  · simp [if_pos h]
  · rw [if_neg h]
    exact natToChars_ne_nil _

/-! ## Tab-joining lemmas -/

theorem tabJoined_glue (a b : Str) (l : List Str) :
    tabJoined ((a ++ '\t' :: b) :: l) = a ++ '\t' :: tabJoined (b :: l) := by
  cases l with
  | nil => simp [tabJoined]
  | cons c l => simp [tabJoined, List.append_assoc]

theorem foldl_tab_eq_tabJoined (f : Str → Str) :
    ∀ (ts : List Str) (acc : Str),
      ts.foldl (fun a t => a ++ '\t' :: f t) acc = tabJoined (acc :: ts.map f) := by
  intro ts
  induction ts with
  | nil => intro acc; simp [tabJoined]
  | cons t ts ih =>
    intro acc
    rw [List.foldl_cons, List.map_cons, ih, tabJoined_glue]
    simp [tabJoined]

theorem tabJoined_cons_shape (t0 : Str) (l : List Str) :
    ∃ r, tabJoined (t0 :: l) = t0 ++ r := by
  cases l with
  | nil => exact ⟨[], by simp [tabJoined]⟩
  | cons b l => exact ⟨'\t' :: tabJoined (b :: l), by simp [tabJoined]⟩

/-! ## Substring-search lemmas -/

theorem beginsWith_append_self (p t : Str) : beginsWith p (p ++ t) = true := by
  induction p with
  | nil => rfl
  | cons c cs ih => simp [beginsWith, ih]

theorem findSub_ws_prefix {p0 : Char} {ps : Str} :
    ∀ (ind : Str) {rest : Str}, isCppSpace p0 = false →
      (∀ c ∈ ind, isCppSpace c = true) →
      beginsWith (p0 :: ps) rest = true →
      findSub (p0 :: ps) (ind ++ rest) = some ind.length := by
  intro ind
  induction ind with
  | nil =>
    intro rest hp0 _ hbeg
    cases rest with
    | nil => simp [beginsWith] at hbeg
    | cons r rs =>
      rw [List.nil_append]
      simp only [findSub]
      rw [if_pos hbeg]
      rfl
  | cons d ind ih =>
    intro rest hp0 hind hbeg
    have hd : isCppSpace d = true := hind d (List.mem_cons_self d ind)
    have hne : ¬(beginsWith (p0 :: ps) (d :: (ind ++ rest)) = true) := by
      simp only [beginsWith, Bool.and_eq_true, beq_iff_eq]
      rintro ⟨rfl, -⟩
      rw [hd] at hp0
      exact absurd hp0 (by simp)
    rw [List.cons_append]
    simp only [findSub]
    rw [if_neg hne]
    rw [ih hp0 (fun c hc => hind c (List.mem_cons_of_mem _ hc)) hbeg]
    rfl

/-- The first occurrence of a token `p0 :: ps` placed right after a
whitespace run is at the end of that run. -/
theorem findSub_token_pos {ws tail : Str} {p0 : Char} {ps : Str}
    (hp0 : isCppSpace p0 = false)
    (hws : ∀ c ∈ ws, isCppSpace c = true) :
    findSub (p0 :: ps) (ws ++ (p0 :: ps) ++ tail) = some ws.length := by
  rw [List.append_assoc]
  exact findSub_ws_prefix ws hp0 hws (beginsWith_append_self _ _)

/-! ## Parser lemmas -/

theorem parse_step_counts (info : ObjInfo) (line : Str) :
    ((parse_step info line).vt_count, (parse_step info line).tris_count) =
      if containsSub pcMarker line = true then extract_point_counts line
      else (info.vt_count, info.tris_count) := by
  unfold parse_step
  by_cases he : line.isEmpty
  · rw [if_pos he]
    have hl : line = [] := by simpa using he
    subst hl
    rw [if_neg (by decide)]
  · rw [if_neg he]
    by_cases hm : containsSub pcMarker line = true
    · simp [hm]
    · simp [hm]

theorem parse_step_lines (info : ObjInfo) (line : Str) :
    (parse_step info line).lines =
      if line.isEmpty then info.lines else info.lines ++ [mkObjLine line] := by
  unfold parse_step
  by_cases he : line.isEmpty
  · simp [he]
  · by_cases hm : containsSub pcMarker line = true <;> simp [he, hm]

theorem parse_step_line_count (info : ObjInfo) (line : Str) :
    (parse_step info line).line_count = info.line_count := by
  unfold parse_step
  by_cases he : line.isEmpty
  · simp [he]
  · by_cases hm : containsSub pcMarker line = true <;> simp [he, hm]

theorem parse_foldl_counts :
    ∀ (ls : List Str) (info : ObjInfo),
      ((ls.foldl parse_step info).vt_count, (ls.foldl parse_step info).tris_count) =
        match ls.reverse.find? (fun l => containsSub pcMarker l) with
        | some l => extract_point_counts l
        | none => (info.vt_count, info.tris_count) := by
  intro ls
  induction ls with
  | nil => intro info; simp
  | cons l ls ih =>
    intro info
    rw [List.foldl_cons, ih (parse_step info l), List.reverse_cons, List.find?_append]
    cases hfind : ls.reverse.find? (fun l => containsSub pcMarker l) with
    | some l' => simp [Option.or]
    | none =>
      simp only [Option.or]
      by_cases hm : containsSub pcMarker l = true
      · rw [parse_step_counts]
        simp [List.find?, hm]
      · rw [parse_step_counts]
        simp [List.find?, hm]

theorem parse_foldl_lines :
    ∀ (ls : List Str) (info : ObjInfo),
      (ls.foldl parse_step info).lines =
        info.lines ++ (ls.filter (fun l => !l.isEmpty)).map mkObjLine := by
  intro ls
  induction ls with
  | nil => intro info; simp
  | cons l ls ih =>
    intro info
    rw [List.foldl_cons, ih, parse_step_lines, List.filter_cons]
    by_cases he : l.isEmpty
    · simp [he]
    · simp [he]

theorem parse_foldl_line_count :
    ∀ (ls : List Str) (info : ObjInfo),
      (ls.foldl parse_step info).line_count = info.line_count := by
  intro ls
  induction ls with
  | nil => intro info; rfl
  | cons l ls ih =>
    intro info
    rw [List.foldl_cons, ih, parse_step_line_count]

/-! ## Claim C5 -/

/-- Claim C5, corrected: the parser takes its two counts from the
*last* line whose raw text contains the `POINT_COUNTS` marker anywhere
(each such line overwrites the previous counts); a line yields token
indices 1 and 4 only when it has at least 5 tokens and its *first
token* equals the marker, and `(0, 0)` otherwise; with no marker line
both counts are 0. -/
theorem parser_counts_from_last_marker (lines : List Str) :
    ((parse_obj lines).vt_count, (parse_obj lines).tris_count) =
      match lastMarkerLine lines with
      | some l => extract_point_counts l
      | none => (0, 0) := by
  unfold parse_obj lastMarkerLine
  exact parse_foldl_counts lines _

/-- Claim C5 counterexample: with two well-formed header lines the
counts come from the second (last) one, not the first — the parsed
vertex count is 5, not 1. -/
theorem parser_first_header_cex :
    (parse_obj ["POINT_COUNTS 1 2 3 4".toList, "POINT_COUNTS 5 6 7 8".toList]).vt_count
        = 5 ∧
    (parse_obj ["POINT_COUNTS 1 2 3 4".toList, "POINT_COUNTS 5 6 7 8".toList]).tris_count
        = 8 ∧
    ¬((parse_obj ["POINT_COUNTS 1 2 3 4".toList,
        "POINT_COUNTS 5 6 7 8".toList]).vt_count = 1) := by
  decide

/-! ## Claim C6 -/

/-- Claim C6, corrected: the parser retains exactly the *non-empty*
input lines as records (empty lines are skipped, so the record count
can be smaller than the input line count, though the `line_count`
field still reports the raw count); a retained record has an empty
record type exactly when its text is all whitespace. -/
theorem parser_retains_nonempty_lines (lines : List Str) :
    (parse_obj lines).lines.map (·.content) = lines.filter (fun l => !l.isEmpty) ∧
    (parse_obj lines).line_count = (lines.length : Int) ∧
    ∀ rec ∈ (parse_obj lines).lines, (rec.type = [] ↔ tokenize rec.content = []) := by
  refine ⟨?_, ?_, ?_⟩
  · unfold parse_obj
    rw [parse_foldl_lines]
    simp only [List.nil_append, List.map_map]
    have : (fun l => l.content) ∘ mkObjLine = id := by
      funext l
      simp [mkObjLine]
    rw [this, List.map_id]
  · unfold parse_obj
    rw [parse_foldl_line_count]
  · intro rec hrec
    unfold parse_obj at hrec
    rw [parse_foldl_lines] at hrec
    simp only [List.nil_append] at hrec
    obtain ⟨l, hl, rfl⟩ := List.mem_map.mp hrec
    constructor
    · intro hty
      by_contra hne
      obtain ⟨t0, ts, htok⟩ : ∃ t0 ts, tokenize l = t0 :: ts := by
        cases h : tokenize l with
        | nil => exact absurd h hne
        | cons a b => exact ⟨a, b, rfl⟩
      have hmem : t0 ∈ tokenize l := by
        rw [htok]
        exact List.mem_cons_self t0 ts
      have ht0 : t0 = [] := by
        rw [show (mkObjLine l).type = t0 by simp [mkObjLine, htok]] at hty
        exact hty
      exact (tokenize_mem hmem).1 ht0
    · intro htok
      have h2 : tokenize l = [] := by simpa [mkObjLine] using htok
      simp [mkObjLine, h2]

/-- Claim C6 counterexample: a single blank input line is dropped from
the record sequence entirely (0 records from 1 line), rather than
being retained with an empty record type. -/
theorem parser_blank_line_cex :
    (parse_obj [([] : Str)]).lines = [] ∧ ([([] : Str)]).length = 1 := by
  decide

/-! ## Claim C8 -/

/-- Claim C8: the format validator passes if and only if the input has
at least 3 lines, the line at index 1 contains the version marker
substring "800", and the line at index 2 contains the type marker
substring "OBJ". -/
theorem validator_pass_iff (lines : List Str) :
    validate_obj_format lines = true ↔
      3 ≤ lines.length ∧ containsSub ver800 (lines.getD 1 []) = true ∧
        containsSub objTag (lines.getD 2 []) = true := by
  unfold validate_obj_format
  split_ifs with h1 h2 h3
  · refine iff_of_false (by simp) ?_
    rintro ⟨h, -, -⟩
    omega
  · refine iff_of_false (by simp) ?_
    rintro ⟨-, hv, -⟩
    rw [h2.2] at hv
    exact absurd hv (by simp)
  · refine iff_of_false (by simp) ?_
    rintro ⟨-, -, ho⟩
    rw [h3.2] at ho
    exact absurd ho (by simp)
  · refine iff_of_true rfl ⟨by omega, ?_, ?_⟩
    · cases hv : containsSub ver800 (lines.getD 1 []) with
      | false => exact absurd ⟨by omega, hv⟩ h2
      | true => rfl
    · cases ho : containsSub objTag (lines.getD 2 []) with
      | false => exact absurd ⟨by omega, ho⟩ h3
      | true => rfl

/-! ## Claim C2 -/

/-- Claim C2: an index record (first token "IDX" or "IDX10") is
rewritten by re-parsing every token after the first as an integer and
adding the vertex offset, passing unparsable tokens through unchanged,
and joining the type token with the adjusted references using single
tab separators. -/
theorem idx_record_adjustment (line : Str) (off : Int) (t0 : Str) (rest : List Str)
    (htok : tokenize line = t0 :: rest)
    (hty : t0 = idxTag ∨ t0 = idx10Tag) :
    adjust_indices_line line off = tabJoined (t0 :: rest.map (adjTok off)) := by
  unfold adjust_indices_line
  rw [htok]
  exact foldl_tab_eq_tabJoined (adjTok off) rest t0

/-- Claim C2 witness: `"IDX 0 1 2"` with offset 100 becomes
`"IDX\t100\t101\t102"`. -/
theorem idx_record_adjustment_witness :
    adjust_indices_line ("IDX 0 1 2".toList) 100 = "IDX\t100\t101\t102".toList := by
  rw [idx_record_adjustment ("IDX 0 1 2".toList) 100 idxTag
    ["0".toList, "1".toList, "2".toList] (by decide) (Or.inl rfl)]
  decide

/-! ## Merge pass 1 lemmas -/

theorem headerPass_no_marker_cons (nv nt : Int) (l : ObjLine) (ls : List ObjLine)
    (hm : containsSub pcMarker l.content = false) :
    headerPass nv nt (l :: ls) = l.content :: headerPass nv nt ls := by
  simp only [headerPass]
  rw [if_neg (by simp [hm])]

theorem headerPass_marker_cons (nv nt : Int) (l : ObjLine) (ls : List ObjLine)
    (hm : containsSub pcMarker l.content = true) :
    headerPass nv nt (l :: ls) =
      if 5 ≤ (tokenize l.content).length then [newHeaderLine nv nt (tokenize l.content)]
      else [] := by
  simp only [headerPass]
  rw [if_pos hm]

theorem headerPass_append (nv nt : Int) (pre rest : List ObjLine)
    (hpre : ∀ l ∈ pre, containsSub pcMarker l.content = false) :
    headerPass nv nt (pre ++ rest) = pre.map (·.content) ++ headerPass nv nt rest := by
  induction pre with
  | nil => simp
  | cons l pre ih =>
    rw [List.cons_append,
      headerPass_no_marker_cons nv nt l _ (hpre l (List.mem_cons_self _ _)),
      ih (fun x hx => hpre x (List.mem_cons_of_mem _ hx)), List.map_cons,
      List.cons_append]

theorem tokenize_newHeaderLine (nv nt : Int) (toks : List Str) (f2 f3 : Str)
    (h2 : toks.getD 2 [] = f2) (h3 : toks.getD 3 [] = f3)
    (hf2ne : f2 ≠ []) (hf2ns : ∀ c ∈ f2, isCppSpace c = false)
    (hf3ne : f3 ≠ []) (hf3ns : ∀ c ∈ f3, isCppSpace c = false) :
    tokenize (newHeaderLine nv nt toks) =
      [pcMarker, intToChars nv, f2, f3, intToChars nt] := by
  unfold newHeaderLine
  rw [h2, h3]
  rw [show "POINT_COUNTS ".toList = pcMarker ++ [' '] from by decide]
  simp only [List.append_assoc, List.cons_append, List.singleton_append,
    List.nil_append]
  rw [tokenize_token_cons (by decide) (by decide)]
  rw [tokenize_token_cons (intToChars_ne_nil nv) (fun c hc => intToChars_nospace c hc)]
  rw [tokenize_token_cons hf2ne hf2ns]
  rw [tokenize_token_cons hf3ne hf3ns]
  rw [tokenize_token_single (intToChars_ne_nil nt) (fun c hc => intToChars_nospace c hc)]

/-! ## Claim C1 -/

/-- Claim C1: when the first base line containing the POINT_COUNTS
marker has at least 5 tokens, the merged output carries, right after
the copied base lines preceding it, a header line whose field index 1
is `base.vt_count + addition.vt_count`, whose field indices 2 and 3
are copied unchanged from the base header, and whose field index 4 is
`base.tris_count + addition.tris_count`. -/
theorem merged_header_counts (base addition : ObjInfo)
    (pre post : List ObjLine) (hdr : ObjLine)
    (f0 f1 f2 f3 f4 : Str) (extra : List Str)
    (hsplit : base.lines = pre ++ hdr :: post)
    (hpre : ∀ l ∈ pre, containsSub pcMarker l.content = false)
    (hhdr : containsSub pcMarker hdr.content = true)
    (htoks : tokenize hdr.content = f0 :: f1 :: f2 :: f3 :: f4 :: extra) :
    ∃ hdrOut rest, merge_objects base addition =
      pre.map (·.content) ++ hdrOut :: rest ∧
      tokenize hdrOut =
        [pcMarker, intToChars (base.vt_count + addition.vt_count), f2, f3,
         intToChars (base.tris_count + addition.tris_count)] := by
  have hlen : 5 ≤ (tokenize hdr.content).length := by
    rw [htoks]
    simp only [List.length_cons]
    omega
  have hmem2 : f2 ∈ tokenize hdr.content := by rw [htoks]; simp
  have hmem3 : f3 ∈ tokenize hdr.content := by rw [htoks]; simp
  refine ⟨newHeaderLine (base.vt_count + addition.vt_count)
      (base.tris_count + addition.tris_count) (tokenize hdr.content),
    vtPass base.lines ++ vtPass addition.lines ++ idxPass base.lines ++
      idxAdjPass addition.lines base.vt_count ++ footerGo false base.lines ++
      [attrDrawEnable, attrCockpit] ++ footerAdjGo base.tris_count false addition.lines,
    ?_, ?_⟩
  · unfold merge_objects
    rw [hsplit, headerPass_append _ _ _ _ hpre, headerPass_marker_cons _ _ _ _ hhdr,
      if_pos hlen]
    simp [List.append_assoc]
  · exact tokenize_newHeaderLine _ _ _ f2 f3 (by rw [htoks]; rfl) (by rw [htoks]; rfl)
      (tokenize_mem hmem2).1 (tokenize_mem hmem2).2
      (tokenize_mem hmem3).1 (tokenize_mem hmem3).2

/-- Claim C1 witness: base header "POINT_COUNTS 100 50 0 40" and
addition header "POINT_COUNTS 20 10 0 5" merge into a header with
fields 120, 50, 0, 45. -/
theorem merged_header_counts_witness :
    ∃ hdrOut rest,
      merge_objects (parse_obj demoC1Base) (parse_obj demoC1Add) =
        ["A".toList, "800".toList, "OBJ".toList] ++ hdrOut :: rest ∧
      tokenize hdrOut =
        [pcMarker, "120".toList, "50".toList, "0".toList, "45".toList] := by
  obtain ⟨hdrOut, rest, h1, h2⟩ := merged_header_counts (parse_obj demoC1Base)
    (parse_obj demoC1Add)
    [mkObjLine "A".toList, mkObjLine "800".toList, mkObjLine "OBJ".toList] []
    (mkObjLine "POINT_COUNTS 100 50 0 40".toList)
    "POINT_COUNTS".toList "100".toList "50".toList "0".toList "40".toList []
    (by decide) (by decide) (by decide) (by decide)
  refine ⟨hdrOut, rest, ?_, ?_⟩
  · rw [h1, show List.map (·.content) [mkObjLine "A".toList, mkObjLine "800".toList,
      mkObjLine "OBJ".toList] = ["A".toList, "800".toList, "OBJ".toList] from by decide]
  · rw [show (parse_obj demoC1Base).vt_count + (parse_obj demoC1Add).vt_count = 120
        from by decide,
      show (parse_obj demoC1Base).tris_count + (parse_obj demoC1Add).tris_count = 45
        from by decide] at h2
    rw [h2]
    decide

/-! ## Claim C10 -/

/-- Claim C10: if the first base line containing the POINT_COUNTS
marker has fewer than 5 tokens, pass 1 copies only the lines before it
and stops: the malformed header is silently omitted from the output
(neither copied nor rewritten). -/
theorem malformed_header_omitted (base addition : ObjInfo)
    (pre post : List ObjLine) (hdr : ObjLine)
    (hsplit : base.lines = pre ++ hdr :: post)
    (hpre : ∀ l ∈ pre, containsSub pcMarker l.content = false)
    (hhdr : containsSub pcMarker hdr.content = true)
    (hshort : (tokenize hdr.content).length < 5) :
    merge_objects base addition =
      pre.map (·.content) ++
        (vtPass base.lines ++ vtPass addition.lines ++ idxPass base.lines ++
          idxAdjPass addition.lines base.vt_count ++ footerGo false base.lines ++
          [attrDrawEnable, attrCockpit] ++
          footerAdjGo base.tris_count false addition.lines) := by
  unfold merge_objects
  rw [hsplit, headerPass_append _ _ _ _ hpre, headerPass_marker_cons _ _ _ _ hhdr,
    if_neg (by omega)]
  simp [List.append_assoc]

/-- Claim C10 witness: a base whose header "POINT_COUNTS 7" has only 2
tokens merges to an output that starts with the three pre-header lines
and contains no header line. -/
theorem malformed_header_omitted_witness :
    merge_objects (parse_obj demoC10Base) (parse_obj demoMinAdd) =
      ["A".toList, "800".toList, "OBJ".toList] ++
        (vtPass (parse_obj demoC10Base).lines ++ vtPass (parse_obj demoMinAdd).lines ++
          idxPass (parse_obj demoC10Base).lines ++
          idxAdjPass (parse_obj demoMinAdd).lines (parse_obj demoC10Base).vt_count ++
          footerGo false (parse_obj demoC10Base).lines ++
          [attrDrawEnable, attrCockpit] ++
          footerAdjGo (parse_obj demoC10Base).tris_count false
            (parse_obj demoMinAdd).lines) := by
  rw [malformed_header_omitted (parse_obj demoC10Base) (parse_obj demoMinAdd)
    [mkObjLine "A".toList, mkObjLine "800".toList, mkObjLine "OBJ".toList]
    [mkObjLine "VT x".toList] (mkObjLine "POINT_COUNTS 7".toList)
    (by decide) (by decide) (by decide) (by decide)]
  rw [show List.map (·.content) [mkObjLine "A".toList, mkObjLine "800".toList,
    mkObjLine "OBJ".toList] = ["A".toList, "800".toList, "OBJ".toList] from by decide]

/-! ## Footer pass lemmas -/

theorem footerGo_true_eq (ls : List ObjLine) :
    footerGo true ls = (ls.filter fun l => !isIdxType l.type).map (·.content) := by
  induction ls with
  | nil => rfl
  | cons l ls ih =>
    by_cases h : isIdxType l.type
    · rw [show footerGo true (l :: ls) = footerGo true ls from by simp [footerGo, h]]
      rw [ih, List.filter_cons, if_neg (by simp [h])]
    · rw [show footerGo true (l :: ls) = l.content :: footerGo true ls from by
        simp [footerGo, h]]
      rw [ih, List.filter_cons, if_pos (by simp [h])]
      rfl

theorem footerGo_false_eq (ls : List ObjLine) :
    footerGo false ls =
      ((ls.dropWhile fun l => !isIdxType l.type).filter fun l => !isIdxType l.type).map
        (·.content) := by
  induction ls with
  | nil => rfl
  | cons l ls ih =>
    by_cases h : isIdxType l.type
    · rw [show footerGo false (l :: ls) = footerGo true ls from by simp [footerGo, h]]
      rw [footerGo_true_eq, List.dropWhile_cons, if_neg (by simp [h]),
        List.filter_cons, if_neg (by simp [h])]
    · rw [show footerGo false (l :: ls) = footerGo false ls from by simp [footerGo, h]]
      rw [ih, List.dropWhile_cons, if_pos (by simp [h])]

theorem footerAdjGo_true_eq (off : Int) (ls : List ObjLine) :
    footerAdjGo off true ls =
      (ls.filter fun l => !isIdxType l.type).map
        (fun l => if l.type = trisTag then adjust_tris_line l.content off
          else l.content) := by
  induction ls with
  | nil => rfl
  | cons l ls ih =>
    by_cases h : isIdxType l.type
    · rw [show footerAdjGo off true (l :: ls) = footerAdjGo off true ls from by
        simp [footerAdjGo, h]]
      rw [ih, List.filter_cons, if_neg (by simp [h])]
    · rw [show footerAdjGo off true (l :: ls) =
          (if l.type = trisTag then adjust_tris_line l.content off else l.content) ::
            footerAdjGo off true ls from by simp [footerAdjGo, h]]
      rw [ih, List.filter_cons,
        if_pos (show (!isIdxType l.type) = true from by simp [h])]
      rfl

theorem footerAdjGo_false_eq (off : Int) (ls : List ObjLine) :
    footerAdjGo off false ls =
      ((ls.dropWhile fun l => !isIdxType l.type).filter fun l => !isIdxType l.type).map
        (fun l => if l.type = trisTag then adjust_tris_line l.content off
          else l.content) := by
  induction ls with
  | nil => rfl
  | cons l ls ih =>
    by_cases h : isIdxType l.type
    · rw [show footerAdjGo off false (l :: ls) = footerAdjGo off true ls from by
        simp [footerAdjGo, h]]
      rw [footerAdjGo_true_eq, List.dropWhile_cons, if_neg (by simp [h]),
        List.filter_cons, if_neg (by simp [h])]
    · rw [show footerAdjGo off false (l :: ls) = footerAdjGo off false ls from by
        simp [footerAdjGo, h]]
      rw [ih, List.dropWhile_cons, if_pos (by simp [h])]

/-! ## Claim C4 -/

/-- Claim C4, corrected: each trailing section of the merge consists
of the non-index records after the *first* index record of its
document (the past-index flag is never reset, so a non-index record
lying between two index records *is* included); base trailing records
are unmodified, and addition trailing records of type TRIS are
adjusted by the base triangle count, all in original order. -/
theorem trailing_sections (base addition : ObjInfo) :
    merge_objects base addition =
      headerPass (base.vt_count + addition.vt_count)
          (base.tris_count + addition.tris_count) base.lines
        ++ vtPass base.lines
        ++ vtPass addition.lines
        ++ idxPass base.lines
        ++ idxAdjPass addition.lines base.vt_count
        ++ ((base.lines.dropWhile fun l => !isIdxType l.type).filter
              fun l => !isIdxType l.type).map (·.content)
        ++ [attrDrawEnable, attrCockpit]
        ++ ((addition.lines.dropWhile fun l => !isIdxType l.type).filter
              fun l => !isIdxType l.type).map
            (fun l => if l.type = trisTag
              then adjust_tris_line l.content base.tris_count else l.content) := by
  unfold merge_objects
  rw [footerGo_false_eq, footerAdjGo_false_eq]

/-- Claim C4 counterexample: in a base document whose records after
the header are IDX, FOO, IDX, BAR, the record FOO lies between two
index records — it is not after the last index record — yet the merge
emits it in the base trailing section. -/
theorem trailing_after_last_cex :
    footerGo false (parse_obj demoC4Base).lines = ["FOO".toList, "BAR".toList] ∧
    "FOO".toList ∈ merge_objects (parse_obj demoC4Base) (parse_obj demoMinAdd) := by
  decide


/-! ## TRIS adjuster lemmas -/

theorem tokens_three_shape {line : Str} (hlen : ¬(tokenize line).length < 3)
    (htag : (tokenize line).getD 0 [] = trisTag) :
    ∃ t1 t2 ts, tokenize line = trisTag :: t1 :: t2 :: ts := by
  cases hx : tokenize line with
  | nil => rw [hx] at hlen; simp at hlen
  | cons a l1 =>
    cases l1 with
    | nil => rw [hx] at hlen; simp at hlen
    | cons b l2 =>
      cases l2 with
      | nil => rw [hx] at hlen; simp at hlen
      | cons cc l3 =>
        refine ⟨b, cc, l3, ?_⟩
        rw [hx] at htag
        rw [show (a :: b :: cc :: l3).getD 0 [] = a from rfl] at htag
        rw [htag]

/-- Any shape or parse failure leaves the line unmodified. -/
theorem adjust_tris_fail (line : Str) (off : Int)
    (h : (tokenize line).length < 3 ∨ (tokenize line).getD 0 [] ≠ trisTag ∨
      stoi ((tokenize line).getD 1 []) = none) :
    adjust_tris_line line off = line := by
  simp only [adjust_tris_line]
  split
  · rfl
  · rename_i hguard
    have hstoi : stoi ((tokenize line).getD 1 []) = none := by
      rcases h with h1 | h2 | h3
      · exact absurd (Or.inl h1) hguard
      · exact absurd (Or.inr h2) hguard
      · exact h3
    split
    · rfl
    · split
      · rename_i v heq
        rw [hstoi] at heq
        exact absurd heq (by simp)
      · rfl

/-- On a well-shaped TRIS record the output is the leading whitespace,
the tag, the adjusted index and the third token, tab-separated. -/
theorem adjust_tris_ok (line : Str) (off : Int) (t1 t2 : Str) (ts : List Str) (v : Int)
    (htok : tokenize line = trisTag :: t1 :: t2 :: ts) (hstoi : stoi t1 = some v) :
    adjust_tris_line line off =
      line.takeWhile isCppSpace ++ trisTag ++ '\t' :: intToChars (v + off) ++
        '\t' :: t2 := by
  have hg : ¬((tokenize line).length < 3 ∨ (tokenize line).getD 0 [] ≠ trisTag) := by
    rw [htok]
    push_neg
    exact ⟨by simp only [List.length_cons]; omega, rfl⟩
  have hg1 : (tokenize line).getD 1 [] = t1 := by rw [htok]; rfl
  have hg2 : (tokenize line).getD 2 [] = t2 := by rw [htok]; rfl
  obtain ⟨tail, hsplit⟩ := tokenize_head_split htok
  set w := line.takeWhile isCppSpace with hw
  have hws : ∀ c ∈ w, isCppSpace c = true := fun c hc => List.mem_takeWhile_imp hc
  have hfind : findSub trisTag line = some w.length := by
    conv_lhs => rw [hsplit]
    rw [show trisTag = 'T' :: "RIS".toList from by decide]
    exact findSub_token_pos (by decide) hws
  have htake : line.take w.length = w := by
    rw [hsplit, List.append_assoc]
    exact List.take_left _ _
  simp only [adjust_tris_line, eq_false hg, if_false, hfind, hg1, hstoi, hg2]
  rw [htake]

/-! ## Claim C3 -/

/-- Claim C3, corrected: the adjuster returns the original raw line
whenever the line has fewer than 3 tokens, or its first token is not
"TRIS", or the index token fails integer parsing; otherwise it returns
the leading whitespace before the tag, then "TRIS", a tab, the index
plus the offset, a tab, and the third token. Tokens beyond the third
are discarded, so a line with *more* than 3 tokens is rebuilt (and
truncated), not returned unmodified. -/
theorem tris_record_adjustment (line : Str) (off : Int) :
    ((tokenize line).length < 3 ∨ (tokenize line).getD 0 [] ≠ trisTag ∨
        stoi ((tokenize line).getD 1 []) = none →
      adjust_tris_line line off = line) ∧
    (∀ t1 t2 ts v, tokenize line = trisTag :: t1 :: t2 :: ts → stoi t1 = some v →
      adjust_tris_line line off =
        line.takeWhile isCppSpace ++ trisTag ++ '\t' :: intToChars (v + off) ++
          '\t' :: t2) :=
  ⟨fun h => adjust_tris_fail line off h,
   fun t1 t2 ts v htok hstoi => adjust_tris_ok line off t1 t2 ts v htok hstoi⟩

/-- Claim C3 witness: the raw record text tab-tab-TRIS-tab-5-tab-3
with offset 10 becomes tab-tab-TRIS-tab-15-tab-3 (leading tabs
preserved). -/
theorem tris_record_adjustment_witness :
    adjust_tris_line ("\t\tTRIS\t5\t3".toList) 10 = "\t\tTRIS\t15\t3".toList := by
  rw [(tris_record_adjustment ("\t\tTRIS\t5\t3".toList) 10).2
    "5".toList "3".toList [] 5 (by decide) (by decide)]
  decide

/-- Claim C3 counterexample: a TRIS line with 4 tokens does not have
exactly 3 tokens, yet it is not returned unmodified: the code only
requires at least 3 tokens and drops the extra token. -/
theorem tris_exactly_three_cex :
    adjust_tris_line ("TRIS 5 3 9".toList) 10 ≠ "TRIS 5 3 9".toList ∧
    adjust_tris_line ("TRIS 5 3 9".toList) 10 = "TRIS\t15\t3".toList := by
  decide


/-! ## Attribute-line lemmas -/

/-- A string starting with a non-whitespace character is neither of
the two attribute lines (both start with a tab). -/
theorem cons_nonspace_ne_attr {c : Char} {r t : Str} (hc : isCppSpace c = false)
    (ht : t = attrDrawEnable ∨ t = attrCockpit) : c :: r ≠ t := by
  rcases ht with rfl | rfl
  · rw [show attrDrawEnable = '\t' :: "ATTR_draw_enable".toList from by decide]
    intro h
    injection h with h1 _
    rw [h1] at hc
    exact absurd hc (by decide)
  · rw [show attrCockpit = '\t' :: "ATTR_cockpit".toList from by decide]
    intro h
    injection h with h1 _
    rw [h1] at hc
    exact absurd hc (by decide)

theorem newHeaderLine_shape (nv nt : Int) (toks : List Str) :
    ∃ r, newHeaderLine nv nt toks = 'P' :: r := by
  unfold newHeaderLine
  rw [show "POINT_COUNTS ".toList = 'P' :: "OINT_COUNTS ".toList from by decide]
  simp only [List.cons_append]
  exact ⟨_, rfl⟩

theorem newHeaderLine_ne_attr (nv nt : Int) (toks : List Str) {t : Str}
    (ht : t = attrDrawEnable ∨ t = attrCockpit) : newHeaderLine nv nt toks ≠ t := by
  obtain ⟨r, hr⟩ := newHeaderLine_shape nv nt toks
  rw [hr]
  exact cons_nonspace_ne_attr (by decide) ht

/-- The index adjuster never produces an attribute line: its output
either is the all-whitespace input line or starts with the first
token's head character, which is not whitespace. -/
theorem adjust_indices_line_ne_attr (line : Str) (off : Int) {t : Str}
    (ht : t = attrDrawEnable ∨ t = attrCockpit)
    (hline : line ≠ t) : adjust_indices_line line off ≠ t := by
  cases htok : tokenize line with
  | nil =>
    unfold adjust_indices_line
    rw [htok]
    exact hline
  | cons t0 rest =>
    have h0 := tokenize_mem (show t0 ∈ tokenize line by
      rw [htok]; exact List.mem_cons_self _ _)
    obtain ⟨c, cs, rfl⟩ := List.exists_cons_of_ne_nil h0.1
    unfold adjust_indices_line
    rw [htok]
    show List.foldl _ _ rest ≠ t
    rw [foldl_tab_eq_tabJoined (adjTok off) rest (c :: cs)]
    obtain ⟨r, hr⟩ := tabJoined_cons_shape (c :: cs) (rest.map (adjTok off))
    rw [hr, List.cons_append]
    exact cons_nonspace_ne_attr (h0.2 c (List.mem_cons_self _ _)) ht

/-- The TRIS adjuster returns the input line or a line that is leading
whitespace followed by the tag. -/
theorem adjust_tris_cases (line : Str) (off : Int) :
    adjust_tris_line line off = line ∨
    ∃ r, adjust_tris_line line off = line.takeWhile isCppSpace ++ 'T' :: r := by
  by_cases hg : (tokenize line).length < 3 ∨ (tokenize line).getD 0 [] ≠ trisTag
  · rcases hg with h1 | h2
    · exact Or.inl (adjust_tris_fail line off (Or.inl h1))
    · exact Or.inl (adjust_tris_fail line off (Or.inr (Or.inl h2)))
  · push_neg at hg
    obtain ⟨t1, t2, ts, htok⟩ := tokens_three_shape (by omega) hg.2
    cases hstoi : stoi t1 with
    | none =>
      refine Or.inl (adjust_tris_fail line off (Or.inr (Or.inr ?_)))
      rw [show (tokenize line).getD 1 [] = t1 from by rw [htok]; rfl]
      exact hstoi
    | some v =>
      right
      rw [adjust_tris_ok line off t1 t2 ts v htok hstoi]
      refine ⟨"RIS".toList ++ '\t' :: intToChars (v + off) ++ '\t' :: t2, ?_⟩
      rw [show trisTag = 'T' :: "RIS".toList from by decide]
      simp [List.cons_append, List.append_assoc]

theorem adjust_tris_line_ne_attr (line : Str) (off : Int) {t : Str}
    (ht : t = attrDrawEnable ∨ t = attrCockpit)
    (hline : line ≠ t) : adjust_tris_line line off ≠ t := by
  rcases adjust_tris_cases line off with h | ⟨r, h⟩
  · rw [h]
    exact hline
  · rw [h]
    intro hEq
    have hws : ∀ c ∈ line.takeWhile isCppSpace, isCppSpace c = true :=
      fun c hc => List.mem_takeWhile_imp hc
    cases hw : line.takeWhile isCppSpace with
    | nil =>
      rw [hw, List.nil_append] at hEq
      exact cons_nonspace_ne_attr (by decide) ht hEq
    | cons d ind =>
      cases ind with
      | nil =>
        rcases ht with rfl | rfl
        · rw [hw, show attrDrawEnable = '\t' :: 'A' :: "TTR_draw_enable".toList
            from by decide] at hEq
          injection hEq with _ hEq2
          injection hEq2 with h2 _
          exact absurd h2 (by decide)
        · rw [hw, show attrCockpit = '\t' :: 'A' :: "TTR_cockpit".toList
            from by decide] at hEq
          injection hEq with _ hEq2
          injection hEq2 with h2 _
          exact absurd h2 (by decide)
      | cons d2 ind2 =>
        have hd2 : isCppSpace d2 = true := by
          refine hws d2 ?_
          rw [hw]
          exact List.mem_cons_of_mem _ (List.mem_cons_self _ _)
        rcases ht with rfl | rfl
        · rw [hw, show attrDrawEnable = '\t' :: 'A' :: "TTR_draw_enable".toList
            from by decide] at hEq
          injection hEq with _ hEq2
          injection hEq2 with h2 _
          rw [h2] at hd2
          exact absurd hd2 (by decide)
        · rw [hw, show attrCockpit = '\t' :: 'A' :: "TTR_cockpit".toList
            from by decide] at hEq
          injection hEq with _ hEq2
          injection hEq2 with h2 _
          rw [h2] at hd2
          exact absurd hd2 (by decide)

/-! ## Pass membership lemmas -/

theorem headerPass_mem (nv nt : Int) :
    ∀ (ls : List ObjLine) (x : Str), x ∈ headerPass nv nt ls →
      (∃ l ∈ ls, x = l.content) ∨ ∃ toks, x = newHeaderLine nv nt toks := by
  intro ls
  induction ls with
  | nil => intro x hx; simp [headerPass] at hx
  | cons l ls ih =>
    intro x hx
    by_cases hm : containsSub pcMarker l.content = true
    · rw [headerPass_marker_cons _ _ _ _ hm] at hx
      by_cases h5 : 5 ≤ (tokenize l.content).length
      · rw [if_pos h5] at hx
        rw [List.mem_singleton.mp hx]
        exact Or.inr ⟨tokenize l.content, rfl⟩
      · rw [if_neg h5] at hx
        simp at hx
    · rw [headerPass_no_marker_cons _ _ _ _ (by simpa using hm)] at hx
      rcases List.mem_cons.mp hx with rfl | hx'
      · exact Or.inl ⟨l, List.mem_cons_self _ _, rfl⟩
      · rcases ih x hx' with ⟨l', hl', hxe⟩ | hr
        · exact Or.inl ⟨l', List.mem_cons_of_mem _ hl', hxe⟩
        · exact Or.inr hr

theorem vtPass_mem {ls : List ObjLine} {x : Str} (hx : x ∈ vtPass ls) :
    ∃ l ∈ ls, x = l.content := by
  unfold vtPass at hx
  obtain ⟨l, hl, rfl⟩ := List.mem_map.mp hx
  exact ⟨l, (List.mem_filter.mp hl).1, rfl⟩

theorem idxPass_mem {ls : List ObjLine} {x : Str} (hx : x ∈ idxPass ls) :
    ∃ l ∈ ls, x = l.content := by
  unfold idxPass at hx
  obtain ⟨l, hl, rfl⟩ := List.mem_map.mp hx
  exact ⟨l, (List.mem_filter.mp hl).1, rfl⟩

theorem idxAdjPass_mem {ls : List ObjLine} {off : Int} {x : Str}
    (hx : x ∈ idxAdjPass ls off) :
    ∃ l ∈ ls, x = adjust_indices_line l.content off := by
  unfold idxAdjPass at hx
  obtain ⟨l, hl, rfl⟩ := List.mem_map.mp hx
  exact ⟨l, (List.mem_filter.mp hl).1, rfl⟩

theorem footerGo_mem :
    ∀ (past : Bool) (ls : List ObjLine) (x : Str), x ∈ footerGo past ls →
      ∃ l ∈ ls, x = l.content := by
  intro past ls
  induction ls generalizing past with
  | nil => intro x hx; cases past <;> simp [footerGo] at hx
  | cons l ls ih =>
    intro x hx
    by_cases hidx : isIdxType l.type
    · rw [show footerGo past (l :: ls) = footerGo true ls from by
        simp [footerGo, hidx]] at hx
      obtain ⟨l', hl', hxe⟩ := ih true x hx
      exact ⟨l', List.mem_cons_of_mem _ hl', hxe⟩
    · cases past with
      | true =>
        rw [show footerGo true (l :: ls) = l.content :: footerGo true ls from by
          simp [footerGo, hidx]] at hx
        rcases List.mem_cons.mp hx with rfl | hx'
        · exact ⟨l, List.mem_cons_self _ _, rfl⟩
        · obtain ⟨l', hl', hxe⟩ := ih true x hx'
          exact ⟨l', List.mem_cons_of_mem _ hl', hxe⟩
      | false =>
        rw [show footerGo false (l :: ls) = footerGo false ls from by
          simp [footerGo, hidx]] at hx
        obtain ⟨l', hl', hxe⟩ := ih false x hx
        exact ⟨l', List.mem_cons_of_mem _ hl', hxe⟩

theorem footerAdjGo_mem (off : Int) :
    ∀ (past : Bool) (ls : List ObjLine) (x : Str), x ∈ footerAdjGo off past ls →
      (∃ l ∈ ls, x = l.content) ∨
        ∃ l ∈ ls, x = adjust_tris_line l.content off := by
  intro past ls
  induction ls generalizing past with
  | nil => intro x hx; cases past <;> simp [footerAdjGo] at hx
  | cons l ls ih =>
    intro x hx
    by_cases hidx : isIdxType l.type
    · rw [show footerAdjGo off past (l :: ls) = footerAdjGo off true ls from by
        simp [footerAdjGo, hidx]] at hx
      rcases ih true x hx with ⟨l', hl', hxe⟩ | ⟨l', hl', hxe⟩
      · exact Or.inl ⟨l', List.mem_cons_of_mem _ hl', hxe⟩
      · exact Or.inr ⟨l', List.mem_cons_of_mem _ hl', hxe⟩
    · cases past with
      | true =>
        rw [show footerAdjGo off true (l :: ls) =
            (if l.type = trisTag then adjust_tris_line l.content off else l.content) ::
              footerAdjGo off true ls from by simp [footerAdjGo, hidx]] at hx
        rcases List.mem_cons.mp hx with rfl | hx'
        · by_cases htris : l.type = trisTag
          · rw [if_pos htris]
            exact Or.inr ⟨l, List.mem_cons_self _ _, rfl⟩
          · rw [if_neg htris]
            exact Or.inl ⟨l, List.mem_cons_self _ _, rfl⟩
        · rcases ih true x hx' with ⟨l', hl', hxe⟩ | ⟨l', hl', hxe⟩
          · exact Or.inl ⟨l', List.mem_cons_of_mem _ hl', hxe⟩
          · exact Or.inr ⟨l', List.mem_cons_of_mem _ hl', hxe⟩
      | false =>
        rw [show footerAdjGo off false (l :: ls) = footerAdjGo off false ls from by
          simp [footerAdjGo, hidx]] at hx
        rcases ih false x hx with ⟨l', hl', hxe⟩ | ⟨l', hl', hxe⟩
        · exact Or.inl ⟨l', List.mem_cons_of_mem _ hl', hxe⟩
        · exact Or.inr ⟨l', List.mem_cons_of_mem _ hl', hxe⟩


/-! ## Claim C7 -/

/-- Claim C7, corrected: the two attribute lines are appended
unconditionally between the base trailing section and the addition
trailing section; they occur exactly once each *provided neither input
document already contains them* — an input that does contain one
yields additional occurrences in the output. -/
theorem fixed_attributes_between (base addition : ObjInfo)
    (hb1 : attrDrawEnable ∉ base.lines.map (·.content))
    (hb2 : attrCockpit ∉ base.lines.map (·.content))
    (ha1 : attrDrawEnable ∉ addition.lines.map (·.content))
    (ha2 : attrCockpit ∉ addition.lines.map (·.content)) :
    (merge_objects base addition).count attrDrawEnable = 1 ∧
    (merge_objects base addition).count attrCockpit = 1 ∧
    merge_objects base addition =
      (headerPass (base.vt_count + addition.vt_count)
          (base.tris_count + addition.tris_count) base.lines
        ++ vtPass base.lines ++ vtPass addition.lines ++ idxPass base.lines
        ++ idxAdjPass addition.lines base.vt_count ++ footerGo false base.lines)
      ++ attrDrawEnable :: attrCockpit ::
          footerAdjGo base.tris_count false addition.lines := by
  have hcount : ∀ t, (t = attrDrawEnable ∨ t = attrCockpit) →
      t ∉ base.lines.map (·.content) → t ∉ addition.lines.map (·.content) →
      (merge_objects base addition).count t = ([attrDrawEnable, attrCockpit] : List Str).count t := by
    intro t ht hb ha
    have hb' : ∀ l ∈ base.lines, t ≠ l.content := by
      intro l hl hEq
      exact hb (List.mem_map.mpr ⟨l, hl, hEq.symm⟩)
    have ha' : ∀ l ∈ addition.lines, t ≠ l.content := by
      intro l hl hEq
      exact ha (List.mem_map.mpr ⟨l, hl, hEq.symm⟩)
    unfold merge_objects
    simp only [List.count_append]
    have c1 : (headerPass (base.vt_count + addition.vt_count)
        (base.tris_count + addition.tris_count) base.lines).count t = 0 := by
      refine List.count_eq_zero.mpr ?_
      intro hx
      rcases headerPass_mem _ _ _ t hx with ⟨l, hl, hxe⟩ | ⟨toks, hxe⟩
      · exact hb' l hl hxe
      · exact newHeaderLine_ne_attr _ _ toks ht hxe.symm
    have c2 : (vtPass base.lines).count t = 0 := by
      refine List.count_eq_zero.mpr ?_
      intro hx
      obtain ⟨l, hl, hxe⟩ := vtPass_mem hx
      exact hb' l hl hxe
    have c3 : (vtPass addition.lines).count t = 0 := by
      refine List.count_eq_zero.mpr ?_
      intro hx
      obtain ⟨l, hl, hxe⟩ := vtPass_mem hx
      exact ha' l hl hxe
    have c4 : (idxPass base.lines).count t = 0 := by
      refine List.count_eq_zero.mpr ?_
      intro hx
      obtain ⟨l, hl, hxe⟩ := idxPass_mem hx
      exact hb' l hl hxe
    have c5 : (idxAdjPass addition.lines base.vt_count).count t = 0 := by
      refine List.count_eq_zero.mpr ?_
      intro hx
      obtain ⟨l, hl, hxe⟩ := idxAdjPass_mem hx
      exact adjust_indices_line_ne_attr l.content base.vt_count ht
        (fun h => ha' l hl h.symm) hxe.symm
    have c6 : (footerGo false base.lines).count t = 0 := by
      refine List.count_eq_zero.mpr ?_
      intro hx
      obtain ⟨l, hl, hxe⟩ := footerGo_mem false base.lines t hx
      exact hb' l hl hxe
    have c7 : (footerAdjGo base.tris_count false addition.lines).count t = 0 := by
      refine List.count_eq_zero.mpr ?_
      intro hx
      rcases footerAdjGo_mem _ false addition.lines t hx with ⟨l, hl, hxe⟩ | ⟨l, hl, hxe⟩
      · exact ha' l hl hxe
      · exact adjust_tris_line_ne_attr l.content base.tris_count ht
          (fun h => ha' l hl h.symm) hxe.symm
    rw [c1, c2, c3, c4, c5, c6, c7]
    omega
  refine ⟨?_, ?_, ?_⟩
  · rw [hcount attrDrawEnable (Or.inl rfl) hb1 ha1]
    decide
  · rw [hcount attrCockpit (Or.inr rfl) hb2 ha2]
    decide
  · unfold merge_objects
    simp only [List.append_assoc, List.cons_append, List.nil_append]

/-- Claim C7 witness: two minimal documents containing neither
attribute line merge to an output holding each attribute line exactly
once, between the two trailing sections. -/
theorem fixed_attributes_between_witness :
    (merge_objects (parse_obj demoC1Base) (parse_obj demoMinAdd)).count attrDrawEnable
        = 1 ∧
    (merge_objects (parse_obj demoC1Base) (parse_obj demoMinAdd)).count attrCockpit
        = 1 ∧
    merge_objects (parse_obj demoC1Base) (parse_obj demoMinAdd) =
      (headerPass ((parse_obj demoC1Base).vt_count + (parse_obj demoMinAdd).vt_count)
          ((parse_obj demoC1Base).tris_count + (parse_obj demoMinAdd).tris_count)
          (parse_obj demoC1Base).lines
        ++ vtPass (parse_obj demoC1Base).lines ++ vtPass (parse_obj demoMinAdd).lines
        ++ idxPass (parse_obj demoC1Base).lines
        ++ idxAdjPass (parse_obj demoMinAdd).lines (parse_obj demoC1Base).vt_count
        ++ footerGo false (parse_obj demoC1Base).lines)
      ++ attrDrawEnable :: attrCockpit ::
          footerAdjGo (parse_obj demoC1Base).tris_count false
            (parse_obj demoMinAdd).lines :=
  fixed_attributes_between (parse_obj demoC1Base) (parse_obj demoMinAdd)
    (by decide) (by decide) (by decide) (by decide)

/-- Claim C7 counterexample: two inputs that pass the format validator
where the base already contains the drawing-enable attribute line in
its trailing section; the merged output then contains that line twice,
not exactly once. -/
theorem fixed_attributes_cex :
    validate_obj_format demoC7Base = true ∧
    validate_obj_format demoMinAdd = true ∧
    (merge_objects (parse_obj demoC7Base) (parse_obj demoMinAdd)).count attrDrawEnable
      = 2 := by
  decide


/-! ## Claim C9: exception flow -/

theorem except_bind_ok {α β : Type} (x : α) (k : α → Except Unit β) :
    (Except.ok x >>= k) = k x := rfl

theorem foldlM_except_ok {α β : Type} (f : β → α → Except Unit β) (g : β → α → β)
    (h : ∀ b a, f b a = .ok (g b a)) :
    ∀ (ls : List α) (b : β), ls.foldlM f b = .ok (ls.foldl g b) := by
  intro ls
  induction ls with
  | nil => intro b; rfl
  | cons a ls ih =>
    intro b
    rw [List.foldlM_cons, h b a, except_bind_ok, List.foldl_cons]
    exact ih (g b a)

theorem mapM_except_ok {α β : Type} (f : α → Except Unit β) (g : α → β)
    (h : ∀ a, f a = .ok (g a)) :
    ∀ ls : List α, ls.mapM f = .ok (ls.map g) := by
  intro ls
  induction ls with
  | nil => rfl
  | cons a ls ih =>
    rw [List.mapM_cons, h a, except_bind_ok, ih, except_bind_ok]
    rfl

theorem extract_point_countsE_ok (line : Str) :
    extract_point_countsE line = .ok (extract_point_counts line) := by
  simp only [extract_point_countsE, extract_point_counts]
  split_ifs with hg
  · cases h1 : stoi ((tokenize line)[1]?.getD []) with
    | none =>
      simp [stoiE, h1, tryCatchE, Bind.bind, Except.bind, Pure.pure, Except.pure,
        List.getD]
    | some a =>
      cases h4 : stoi ((tokenize line)[4]?.getD []) with
      | none =>
        simp [stoiE, h1, h4, tryCatchE, Bind.bind, Except.bind, Pure.pure,
          Except.pure, List.getD]
      | some b =>
        simp [stoiE, h1, h4, tryCatchE, Bind.bind, Except.bind, Pure.pure,
          Except.pure, List.getD]
  · rfl

theorem parse_stepE_ok (info : ObjInfo) (line : Str) :
    parse_stepE info line = .ok (parse_step info line) := by
  unfold parse_stepE parse_step
  by_cases he : line.isEmpty
  · rw [if_pos he, if_pos he]
    rfl
  · rw [if_neg he, if_neg he]
    by_cases hm : containsSub pcMarker line = true
    · simp [hm, extract_point_countsE_ok line, Bind.bind, Except.bind, Pure.pure,
        Except.pure]
    · simp [hm, Bind.bind, Except.bind, Pure.pure, Except.pure]

theorem parse_objE_ok (lines : List Str) : parse_objE lines = .ok (parse_obj lines) := by
  unfold parse_objE parse_obj
  exact foldlM_except_ok _ _ parse_stepE_ok lines _

theorem adjust_indices_lineE_ok (line : Str) (off : Int) :
    adjust_indices_lineE line off = .ok (adjust_indices_line line off) := by
  unfold adjust_indices_lineE adjust_indices_line
  cases htok : tokenize line with
  | nil => rfl
  | cons t0 rest =>
    refine foldlM_except_ok _ _ ?_ rest t0
    intro acc t
    cases hs : stoi t with
    | none =>
      simp [stoiE, hs, tryCatchE, adjTok, Bind.bind, Except.bind, Pure.pure,
        Except.pure]
    | some v =>
      simp [stoiE, hs, tryCatchE, adjTok, Bind.bind, Except.bind, Pure.pure,
        Except.pure]

theorem adjust_tris_lineE_ok (line : Str) (off : Int) :
    adjust_tris_lineE line off = .ok (adjust_tris_line line off) := by
  unfold adjust_tris_lineE adjust_tris_line
  by_cases hg : (tokenize line).length < 3 ∨ (tokenize line).getD 0 [] ≠ trisTag
  · rw [if_pos hg, if_pos hg]
    rfl
  · rw [if_neg hg, if_neg hg]
    cases hf : findSub trisTag line with
    | none => rfl
    | some pos =>
      cases hs : stoi ((tokenize line)[1]?.getD []) with
      | none =>
        simp [stoiE, hs, tryCatchE, Bind.bind, Except.bind, Pure.pure, Except.pure,
          List.getD]
      | some v =>
        simp [stoiE, hs, tryCatchE, Bind.bind, Except.bind, Pure.pure, Except.pure,
          List.getD]

theorem footerAdjGoE_ok (off : Int) :
    ∀ (past : Bool) (ls : List ObjLine),
      footerAdjGoE off past ls = .ok (footerAdjGo off past ls) := by
  intro past ls
  induction ls generalizing past with
  | nil => cases past <;> rfl
  | cons l ls ih =>
    by_cases hidx : isIdxType l.type
    · rw [show footerAdjGoE off past (l :: ls) = footerAdjGoE off true ls from by
        simp [footerAdjGoE, hidx],
        show footerAdjGo off past (l :: ls) = footerAdjGo off true ls from by
        simp [footerAdjGo, hidx]]
      exact ih true
    · cases past with
      | true =>
        have hit : isIdxType trisTag = false := by decide
        by_cases htris : l.type = trisTag <;>
          simp [footerAdjGoE, footerAdjGo, hidx, htris, hit, adjust_tris_lineE_ok,
            ih true, Bind.bind, Except.bind, Functor.map, Except.map, Pure.pure,
            Except.pure]
      | false =>
        rw [show footerAdjGoE off false (l :: ls) = footerAdjGoE off false ls from by
          simp [footerAdjGoE, hidx],
          show footerAdjGo off false (l :: ls) = footerAdjGo off false ls from by
          simp [footerAdjGo, hidx]]
        exact ih false

theorem merge_objectsE_ok (base addition : ObjInfo) :
    merge_objectsE base addition = .ok (merge_objects base addition) := by
  unfold merge_objectsE merge_objects idxAdjPassE idxAdjPass
  have hmap := mapM_except_ok
    (fun (l : ObjLine) => adjust_indices_lineE l.content base.vt_count)
    (fun (l : ObjLine) => adjust_indices_line l.content base.vt_count)
    (fun l => adjust_indices_lineE_ok l.content base.vt_count)
    (addition.lines.filter (fun l => isIdxType l.type))
  rw [hmap, except_bind_ok, footerAdjGoE_ok, except_bind_ok]
  rfl

/-- Claim C9: the pipeline functions are total and never propagate an
exception: run in the exception monad, with every `std::stoi` call
able to throw, each function returns `.ok` of its pure result on all
inputs, because every parse failure is caught and converted into a
default or a pass-through (the tokenizer performs no fallible
operation at all). -/
theorem pipeline_total :
    (∀ line, extract_point_countsE line = .ok (extract_point_counts line)) ∧
    (∀ lines, parse_objE lines = .ok (parse_obj lines)) ∧
    (∀ line off, adjust_indices_lineE line off = .ok (adjust_indices_line line off)) ∧
    (∀ line off, adjust_tris_lineE line off = .ok (adjust_tris_line line off)) ∧
    (∀ base addition,
      merge_objectsE base addition = .ok (merge_objects base addition)) :=
  ⟨extract_point_countsE_ok, parse_objE_ok, adjust_indices_lineE_ok,
   adjust_tris_lineE_ok, merge_objectsE_ok⟩

end Kitbash
